import Mathlib

/-!
Verification of `sync_strings.py` (AirRally string-resource synchronizer).

The program is a single Python file.  Its text-level behaviour is embedded
here over `List Char`:

* `load_translations` scans a file's text with
  `re.compile(r'<string\s+[^>]*name="([^"]+)"[^>]*>(.*?)</string>', re.DOTALL)`
  via `finditer`, building a dict `{name: content}` (later matches overwrite
  earlier ones).
* `sync_file` reads the canonical (English) file with `readlines()`, and for
  each line applies `re.search` with
  `r'(<string\s+[^>]*name=")([^"]+)("[^>]*>)(.*?)(</string>)'` (no DOTALL);
  a matched line is rewritten as
  `line_start ++ g1 ++ key ++ g3 ++ content ++ g5 ++ line_end`, where
  `content` is the stored translation when the key is present in the table,
  else `"TODO: " ++ g4` (g4 = the canonical content); unmatched lines pass
  through unchanged.  The target file is overwritten with the new lines.
* `main` aborts if the canonical file is missing; otherwise it lists the
  resource directory, filters names starting with `values-` that are
  directories, and runs `sync_file` on each.

The regular-expression semantics is embedded as a deterministic matcher.
Justification against Python's backtracking engine (leftmost match, greedy
`\s+` / `[^>]*` / `[^"]+`, lazy `.*?`), for both patterns, which share the
shape `<string\s+[^>]*name="([^"]+)"[^>]*>(.*?)</string>`:

* A match attempt at position `i` requires literal `<string` at `i` and a
  whitespace character at `j = i + 7`.
* `\s+[^>]*name="`: let `wend` be the first non-whitespace index ≥ `j`.
  `\s+` takes `t ≥ 1` whitespace chars, `[^>]*` a run of non-`>` chars, then
  the literal `name="` must follow.  An occurrence of `name="` starting at
  `p` is reachable iff `p ≥ j + t` and `s[j+t..p)` has no `>`.  Since
  `s[j..wend)` is whitespace (never `n`) and whitespace is not `>`, the set
  of reachable `p` is independent of `t`: exactly those `p` with
  `wend ≤ p ≤ gtBound` (`gtBound` = first `>` at or after `wend`, else end
  of input) at which `name="` occurs.  Greedy priority tries larger `t`
  first and, within it, larger `[^>]*`, i.e. larger `p` first; as the
  candidate set and the continuation depend only on `p`, the engine's
  outcome is: try candidates `p` in decreasing order, first success wins.
* `([^"]+)"`: the greedy group stops exactly at the first `"` at or after
  `q = p + 6` (backtracking it would put a non-`"` under the literal `"`),
  and must be nonempty: key = `s[q..r)`, `r` = first `"` ≥ `q`, `r > q`.
* `[^>]*>`: deterministically consumes up to and including the first `>`
  at or after `r + 1` (position `g`).
* `(.*?)</string>`: lazy, so the content ends at the first occurrence `m` of
  `</string>` at or after `g + 1`.  Without DOTALL, `.` does not match
  `'\n'`, so the lazy expansion dies at the first newline: the match
  succeeds only if no `'\n'` occurs before `m`.
* `re.search` returns the match at the smallest starting `i` that succeeds;
  `finditer` repeats the search from the end of the previous (nonempty)
  match.

Python's `\s` is modelled on the ASCII range (all inputs considered here are
ASCII).  File I/O is modelled by passing file contents explicitly; the
filesystem of `main` is a structure with the canonical file, the directory
listing and the per-directory target files, and the observable behaviour is
the trace of reads and writes.
-/

set_option maxRecDepth 100000

namespace AirRally

/-- Characters matched by Python's regex class `\s`, on the ASCII range. -/
def pyIsSpace (c : Char) : Bool :=
  c = ' ' || c = '\t' || c = '\n' || c = '\r' || c = '\x0b' || c = '\x0c'

/-- The literal `<string` opening both patterns. -/
def openLit : List Char := ("<string").data

/-- The literal `name="` introducing the key. -/
def nameLit : List Char := ("name=\x22").data

/-- The literal closing tag `</string>`. -/
def closeLit : List Char := ("</string>").data

/-- The pending marker prepended to untranslated canonical content. -/
def todoLit : List Char := ("TODO: ").data

/-- The locale-directory name filter `values-`. -/
def valuesPre : List Char := ("values-").data

/-- `pat` occurs at position `i` of `s`. -/
def isLit (pat s : List Char) (i : Nat) : Bool :=
  pat.isPrefixOf (s.drop i)

/-- First `j` in `[i, i + fuel)` with `p j = true`. -/
def firstFromAux (p : Nat → Bool) : Nat → Nat → Option Nat
  | 0, _ => none
  | fuel + 1, i => if p i then some i else firstFromAux p fuel (i + 1)

/-- Index of the first character at or after `i` satisfying `p`. -/
def findChar (p : Char → Bool) (s : List Char) (i : Nat) : Option Nat :=
  firstFromAux (fun j => p (s.getD j ' ')) (s.length - i) i

/-- Start of the first occurrence of `pat` at or after `i` in `s`. -/
def findSub (pat s : List Char) (i : Nat) : Option Nat :=
  firstFromAux (fun j => isLit pat s j) (s.length + 1 - i) i

/-- Span data of one regex match: match start `ms`, ends of the prefix
group `<string\s+[^>]*name="` (`g1e`), of the key group (`g2e`), of the
`"[^>]*>` group (`g3e`), of the content group (`g4e`), and match end `me`.
The groups are the slices between consecutive indices. -/
structure EntryMatch where
  ms : Nat
  g1e : Nat
  g2e : Nat
  g3e : Nat
  g4e : Nat
  me : Nat
  deriving DecidableEq

/-- Continuation of a match attempt at start `i` once the position `p` of
the `name="` literal is fixed: key up to the first `"`, then up to the
first `>`, then lazy content up to the first `</string>` (without DOTALL
additionally not crossing a newline). -/
def tryAtP (dotAll : Bool) (s : List Char) (i p : Nat) : Option EntryMatch :=
  match findChar (fun c => c = '\x22') s (p + 6) with
  | none => none
  | some r =>
    if r = p + 6 then none
    else
      match findChar (fun c => c = '>') s (r + 1) with
      | none => none
      | some g =>
        match findSub closeLit s (g + 1) with
        | none => none
        | some m =>
          if dotAll then some ⟨i, p + 6, r, g + 1, m, m + 9⟩
          else
            match findChar (fun c => c = '\n') s (g + 1) with
            | none => some ⟨i, p + 6, r, g + 1, m, m + 9⟩
            | some nl => if m ≤ nl then some ⟨i, p + 6, r, g + 1, m, m + 9⟩ else none

/-- Try the candidate `name="` positions in order; first success wins. -/
def tryCands (dotAll : Bool) (s : List Char) (i : Nat) : List Nat → Option EntryMatch
  | [] => none
  | p :: rest =>
    match tryAtP dotAll s i p with
    | some em => some em
    | none => tryCands dotAll s i rest

/-- End of the maximal whitespace run starting at `j` (the first
non-whitespace index at or after `j`, or the end of the input). -/
def wsEnd (s : List Char) (j : Nat) : Nat :=
  (findChar (fun c => !(pyIsSpace c)) s j).getD s.length

/-- Index of the first `>` at or after `w`, or the end of the input: the
positions reachable by `[^>]*` starting at `w` are exactly those up to
this bound. -/
def gtStop (s : List Char) (w : Nat) : Nat :=
  (findChar (fun c => c = '>') s w).getD s.length

/-- The feasible `name="` positions for `\s+[^>]*name="` with whitespace
running to `w`, in the order the backtracking engine reaches them
(decreasing, since `\s+` and `[^>]*` are greedy). -/
def candList (s : List Char) (w : Nat) : List Nat :=
  ((List.range (gtStop s w + 1)).filter
      (fun p => decide (w ≤ p) && isLit nameLit s p)).reverse

/-- One match attempt of the pattern at position `i` (Python `re` semantics,
see the header comment): literal `<string`, at least one whitespace, then
the backtracking over `\s+[^>]*name="` reduced to trying the feasible
`name="` positions in decreasing order. -/
def matchAt (dotAll : Bool) (s : List Char) (i : Nat) : Option EntryMatch :=
  if isLit openLit s i then
    if i + 7 < wsEnd s (i + 7) then
      tryCands dotAll s i (candList s (wsEnd s (i + 7)))
    else none
  else none

/-- First match at a start position in `[pos, pos + fuel)`. -/
def firstMatchAux (f : Nat → Option EntryMatch) : Nat → Nat → Option EntryMatch
  | 0, _ => none
  | fuel + 1, i =>
    match f i with
    | some em => some em
    | none => firstMatchAux f fuel (i + 1)

/-- `re.search` restricted to start positions at or after `pos`. -/
def reSearchFrom (dotAll : Bool) (s : List Char) (pos : Nat) : Option EntryMatch :=
  firstMatchAux (matchAt dotAll s) (s.length + 1 - pos) pos

/-- `re.search`: leftmost successful match. -/
def reSearch (dotAll : Bool) (s : List Char) : Option EntryMatch :=
  reSearchFrom dotAll s 0

/-- `re.finditer` worker: repeatedly search from the end of the previous
match.  Every match of these patterns is nonempty and ends within the
input, so fuel `s.length + 1` never runs out before the search fails. -/
def finditerAux (s : List Char) : Nat → Nat → List EntryMatch
  | 0, _ => []
  | fuel + 1, pos =>
    match reSearchFrom true s pos with
    | none => []
    | some em => em :: finditerAux s fuel em.me

/-- `re.finditer` with the DOTALL pattern of `load_translations`. -/
def finditer (s : List Char) : List EntryMatch :=
  finditerAux s (s.length + 1) 0

/-- The slice `s[a..b)`. -/
def slice (s : List Char) (a b : Nat) : List Char :=
  (s.drop a).take (b - a)

/-- A translation table, as the lookup function of the Python dict. -/
abbrev Table := List Char → Option (List Char)

/-- `translations[name] = value` for one match: later insertions win. -/
def insT (s : List Char) (t : Table) (em : EntryMatch) : Table :=
  fun k => if k = slice s em.g1e em.g2e then some (slice s em.g3e em.g4e) else t k

/-- `load_translations` on a file's text: dict of `{name: content}` over all
DOTALL-pattern matches, in match order. -/
def load_translations (s : List Char) : Table :=
  (finditer s).foldl (insT s) (fun _ => none)

/-- The per-line body of `sync_file`'s loop: rewrite a canonical line.  On a
match, the surrounding groups are reassembled verbatim and the content is
the stored translation for the key when present, else the canonical content
prefixed with `TODO: `; otherwise the line passes through unchanged. -/
def syncLine (table : Table) (line : List Char) : List Char :=
  match reSearch false line with
  | none => line
  | some em =>
    match table (slice line em.g1e em.g2e) with
    | some v =>
        line.take em.ms ++ slice line em.ms em.g1e ++ slice line em.g1e em.g2e ++
          slice line em.g2e em.g3e ++ v ++ slice line em.g4e em.me ++ line.drop em.me
    | none =>
        line.take em.ms ++ slice line em.ms em.g1e ++ slice line em.g1e em.g2e ++
          slice line em.g2e em.g3e ++ (todoLit ++ slice line em.g3e em.g4e) ++
          slice line em.g4e em.me ++ line.drop em.me

/-- Python `readlines()`: split after each `'\n'`, keeping the terminator;
a final unterminated segment is kept.  (The platform newline translation of
text mode is outside the model; contents are the decoded text.) -/
def pyReadlines : List Char → List (List Char)
  | [] => []
  | c :: cs =>
    if c = '\n' then ['\n'] :: pyReadlines cs
    else
      match pyReadlines cs with
      | [] => [[c]]
      | l :: ls => (c :: l) :: ls

/-- The text written back by `sync_file`: the canonical file's lines, each
rewritten against the target's translation table, concatenated
(`f.writelines(new_lines)`). -/
def sync_text (canonical target : List Char) : List Char :=
  ((pyReadlines canonical).map (syncLine (load_translations target))).flatten

/-- Observable filesystem events of a run. -/
inductive Ev where
  | listDir : Ev
  | readTarget : List Char → Ev
  | readCanonical : Ev
  | writeTarget : List Char → List Char → Ev
  deriving DecidableEq

/-- `sync_file` on one directory name: returns early (no events, no output)
when the name lacks the `values-` marker or the target file is absent;
otherwise it reads the target (building its table), reads the canonical
file, and overwrites the target with `sync_text`. -/
def sync_file (target_dir_name : List Char) (targetFile : Option (List Char))
    (canonical : List Char) : List Ev × Option (List Char) :=
  if valuesPre.isPrefixOf target_dir_name then
    match targetFile with
    | none => ([], none)
    | some t =>
        ([Ev.readTarget target_dir_name, Ev.readCanonical,
          Ev.writeTarget target_dir_name (sync_text canonical t)],
         some (sync_text canonical t))
  else ([], none)

/-- The filesystem as `main` sees it: the canonical file's content (if it
exists), the entries of the resource directory, which of them are
directories, and the content of each candidate target file (if it exists). -/
structure FS where
  englishFile : Option (List Char)
  entries : List (List Char)
  isDir : List Char → Bool
  targetFiles : List Char → Option (List Char)

/-- The event trace of `main`: abort with no action when the canonical file
is missing; otherwise list the directory, filter names carrying the
`values-` marker that are directories, and run `sync_file` on each in
order. -/
def main_run (fs : FS) : List Ev :=
  match fs.englishFile with
  | none => []
  | some canonical =>
      Ev.listDir ::
        ((fs.entries.filter (fun d => valuesPre.isPrefixOf d && fs.isDir d)).map
            (fun d => (sync_file d (fs.targetFiles d) canonical).1)).flatten

/-- The content that `sync_file` writes into a matched line's content slot:
the stored translation when present, else the canonical content behind the
`TODO: ` marker. -/
def newContent (table : Table) (line : List Char) (em : EntryMatch) : List Char :=
  match table (slice line em.g1e em.g2e) with
  | some v => v
  | none => todoLit ++ slice line em.g3e em.g4e

/-- `lineRecovers t2 t1 line` checks, for one canonical line, that the table
`t2` (re-extracted from the first run's output) maps the line's key to
exactly the content that the first run (with table `t1`) wrote for it. -/
def lineRecovers (t2 table1 : Table) (line : List Char) : Bool :=
  match reSearch false line with
  | none => true
  | some em =>
      decide (t2 (slice line em.g1e em.g2e) = some (newContent table1 line em))

/-! Concrete inputs used by witnesses and counterexamples. -/

/-- A canonical file with the single entry `greeting` / `Hello`. -/
def greetingCanon : List Char :=
  ("<string name=\x22greeting\x22>Hello</string>\n").data

/-- A target file already translating `greeting` as `Bonjour`. -/
def bonjourTarget : List Char :=
  ("<string name=\x22greeting\x22>Bonjour</string>\n").data

/-- The match spans of the `greeting` line of `greetingCanon`. -/
def emGreeting : EntryMatch := ⟨0, 14, 22, 24, 29, 38⟩

/-- A canonical file with the single entry `a` / `Hello`. -/
def aHelloCanon : List Char := ("<string name=\x22a\x22>Hello</string>\n").data

/-- A target file whose only entry's key `zzz` is absent from `aHelloCanon`. -/
def zzzTarget : List Char := ("<string name=\x22zzz\x22>Zed</string>\n").data

/-- A canonical file with the same key `a` in two entries with different
contents. -/
def dupCanon : List Char :=
  ("<string name=\x22a\x22>One</string>\n<string name=\x22a\x22>Two</string>\n").data

/-- A text whose first entry's content is followed by a stray closing tag. -/
def strayClose : List Char :=
  ("<string name=\x22n\x22>A</string>B</string>").data

/-- A one-line canonical file with the single key `a`. -/
def aCanonLine : List Char := ("<string name=\x22a\x22>E</string>").data

/-- A target file whose entry for `a` has a newline inside its content (the
DOTALL extractor captures it). -/
def newlineTarget : List Char := ("<string name=\x22a\x22>X\nY</string>").data

/-- A target file with no entries at all. -/
def junkTarget : List Char := ("hello world\n").data

/-- A text binding the key `a` twice, to `1` and then to `2`. -/
def dupText : List Char :=
  ("<string name=\x22a\x22>1</string><string name=\x22a\x22>2</string>").data

/-- The second (last) match of `dupText`. -/
def emDupLast : EntryMatch := ⟨27, 41, 42, 44, 45, 54⟩

/-- A filesystem with no canonical file. -/
def fsNoCanon : FS := ⟨none, [("values-fr").data], fun _ => true, fun _ => none⟩

/-- A filesystem with a canonical file and one locale directory that has no
resource file. -/
def fsOneDir : FS :=
  ⟨some greetingCanon, [("values-fr").data], fun _ => true, fun _ => none⟩

/-! ### Facts about the search primitives -/

theorem firstFromAux_some {p : Nat → Bool} {f i j : Nat}
    (h : firstFromAux p f i = some j) :
    i ≤ j ∧ j < i + f ∧ p j = true ∧ ∀ t, i ≤ t → t < j → p t = false := by
  induction f generalizing i with
  | zero => simp [firstFromAux] at h
  | succ f ih =>
    rw [firstFromAux] at h
    by_cases hp : p i = true
    · rw [if_pos hp] at h
      injection h with h
      subst h
      exact ⟨Nat.le_refl _, by omega, hp, fun t ht1 ht2 => by omega⟩
    · rw [if_neg hp] at h
      obtain ⟨h1, h2, h3, h4⟩ := ih h
      refine ⟨by omega, by omega, h3, fun t ht1 ht2 => ?_⟩
      rcases Nat.eq_or_lt_of_le ht1 with rfl | hlt
      · exact Bool.eq_false_iff.mpr hp
      · exact h4 t hlt ht2

theorem firstFromAux_none {p : Nat → Bool} {f i : Nat}
    (h : ∀ t, i ≤ t → t < i + f → p t = false) :
    firstFromAux p f i = none := by
  induction f generalizing i with
  | zero => rfl
  | succ f ih =>
    have hi : p i = false := h i (Nat.le_refl i) (by omega)
    rw [firstFromAux, if_neg (by simp [hi])]
    exact ih (fun t ht1 ht2 => h t (by omega) (by omega))

theorem findChar_some {p : Char → Bool} {s : List Char} {i j : Nat}
    (h : findChar p s i = some j) :
    i ≤ j ∧ j < s.length ∧ p (s.getD j ' ') = true ∧
      ∀ t, i ≤ t → t < j → p (s.getD t ' ') = false := by
  obtain ⟨h1, h2, h3, h4⟩ := firstFromAux_some h
  exact ⟨h1, by omega, h3, h4⟩

theorem findSub_some {pat s : List Char} {i m : Nat}
    (h : findSub pat s i = some m) :
    i ≤ m ∧ isLit pat s m = true ∧ ∀ t, i ≤ t → t < m → isLit pat s t = false := by
  obtain ⟨h1, _, h3, h4⟩ := firstFromAux_some h
  exact ⟨h1, h3, h4⟩

theorem isLit_length {pat s : List Char} {m : Nat} (h : isLit pat s m = true) :
    pat.length ≤ s.length - m := by
  have h2 := (List.isPrefixOf_iff_prefix.mp h).length_le
  simpa using h2

/-! ### Soundness of the match data -/

theorem tryAtP_some {dotAll : Bool} {s : List Char} {i p : Nat} {em : EntryMatch}
    (h : tryAtP dotAll s i p = some em) :
    ∃ r g m, findChar (fun c => c = '\x22') s (p + 6) = some r ∧ p + 6 < r ∧
      findChar (fun c => c = '>') s (r + 1) = some g ∧
      findSub closeLit s (g + 1) = some m ∧
      em = ⟨i, p + 6, r, g + 1, m, m + 9⟩ := by
  unfold tryAtP at h
  split at h
  · simp at h
  next r hr =>
    split at h
    · simp at h
    next hrq =>
      have hple : p + 6 ≤ r := (findChar_some hr).1
      split at h
      · simp at h
      next g hg =>
        split at h
        · simp at h
        next m hm =>
          refine ⟨r, g, m, hr, by omega, hg, hm, ?_⟩
          split at h
          · injection h with h
            exact h.symm
          · split at h
            · injection h with h
              exact h.symm
            next nl hnl =>
              split at h
              · injection h with h
                exact h.symm
              · simp at h

theorem tryCands_some {dotAll : Bool} {s : List Char} {i : Nat} {cands : List Nat}
    {em : EntryMatch} (h : tryCands dotAll s i cands = some em) :
    ∃ p ∈ cands, tryAtP dotAll s i p = some em := by
  induction cands with
  | nil => simp [tryCands] at h
  | cons p rest ih =>
    rw [tryCands] at h
    split at h
    next em2 hp =>
      injection h with h
      subst h
      exact ⟨p, List.mem_cons_self p rest, hp⟩
    next hp =>
      obtain ⟨q, hq1, hq2⟩ := ih h
      exact ⟨q, List.mem_cons_of_mem p hq1, hq2⟩

theorem matchAt_sound {dotAll : Bool} {s : List Char} {i : Nat} {em : EntryMatch}
    (h : matchAt dotAll s i = some em) :
    em.ms = i ∧ i + 14 ≤ em.g1e ∧ em.g1e < em.g2e ∧ em.g2e + 2 ≤ em.g3e ∧
      em.g3e ≤ em.g4e ∧ em.me = em.g4e + 9 ∧
      findSub closeLit s em.g3e = some em.g4e := by
  unfold matchAt at h
  by_cases h1 : isLit openLit s i = true
  · rw [if_pos h1] at h
    by_cases h2 : i + 7 < wsEnd s (i + 7)
    · rw [if_pos h2] at h
      obtain ⟨p, hpmem, hp⟩ := tryCands_some h
      obtain ⟨r, g, m, hr, hrq, hg, hm, rfl⟩ := tryAtP_some hp
      have hw : wsEnd s (i + 7) ≤ p := by
        unfold candList at hpmem
        have h3 := (List.mem_filter.mp (List.mem_reverse.mp hpmem)).2
        have h4 := (Bool.and_eq_true _ _).mp h3
        exact of_decide_eq_true h4.1
      have hgge : r + 1 ≤ g := (findChar_some hg).1
      have hmge : g + 1 ≤ m := (findSub_some hm).1
      refine ⟨rfl, ?_, ?_, ?_, ?_, rfl, ?_⟩
      · show i + 14 ≤ p + 6
        omega
      · show p + 6 < r
        omega
      · show r + 2 ≤ g + 1
        omega
      · show g + 1 ≤ m
        omega
      · show findSub closeLit s (g + 1) = some m
        exact hm
    · rw [if_neg h2] at h; simp at h
  · rw [if_neg h1] at h; simp at h

theorem firstMatchAux_some {f : Nat → Option EntryMatch} {fuel pos : Nat}
    {em : EntryMatch} (h : firstMatchAux f fuel pos = some em) :
    ∃ i, f i = some em := by
  induction fuel generalizing pos with
  | zero => simp [firstMatchAux] at h
  | succ fuel ih =>
    rw [firstMatchAux] at h
    split at h
    next em2 hf =>
      injection h with h
      subst h
      exact ⟨pos, hf⟩
    next hf => exact ih h

theorem reSearch_some {dotAll : Bool} {s : List Char} {em : EntryMatch}
    (h : reSearch dotAll s = some em) : ∃ i, matchAt dotAll s i = some em := by
  unfold reSearch reSearchFrom at h
  exact firstMatchAux_some h

theorem finditerAux_mem {s : List Char} {fuel pos : Nat} {em : EntryMatch}
    (h : em ∈ finditerAux s fuel pos) : ∃ i, matchAt true s i = some em := by
  induction fuel generalizing pos with
  | zero => simp [finditerAux] at h
  | succ fuel ih =>
    rw [finditerAux] at h
    split at h
    next hf => simp at h
    next em2 hf =>
      rcases List.mem_cons.mp h with rfl | h2
      · unfold reSearchFrom at hf
        exact firstMatchAux_some hf
      · exact ih h2

theorem finditer_mem {s : List Char} {em : EntryMatch} (h : em ∈ finditer s) :
    ∃ i, matchAt true s i = some em := by
  unfold finditer at h
  exact finditerAux_mem h

/-! ### Splicing adjacent spans of a line back together -/

theorem take_merge (s : List Char) {a b : Nat} (hab : a ≤ b) (X : List Char) :
    s.take a ++ (slice s a b ++ X) = s.take b ++ X := by
  rw [← List.append_assoc]
  congr 1
  unfold slice
  rw [← List.take_add]
  congr 1
  omega

theorem drop_merge (s : List Char) {a b : Nat} (hab : a ≤ b) :
    slice s a b ++ s.drop b = s.drop a := by
  unfold slice
  have h1 : s.drop b = (s.drop a).drop (b - a) := by
    rw [List.drop_drop]
    congr 1
    omega
  rw [h1, List.take_append_drop]

/-- A matched line is rewritten in place: everything up to the end of the
`"[^>]*>` group and everything from the closing tag on is kept verbatim,
and only the content slot is replaced. -/
theorem syncLine_frame {table : Table} {line : List Char} {em : EntryMatch}
    (hem : reSearch false line = some em) :
    syncLine table line =
      line.take em.g3e ++ newContent table line em ++ line.drop em.g4e := by
  obtain ⟨i, hi⟩ := reSearch_some hem
  obtain ⟨hms, h1, h2, h3, h4, hme, -⟩ := matchAt_sound hi
  have hms1 : em.ms ≤ em.g1e := by omega
  have hms2 : em.g1e ≤ em.g2e := by omega
  have hms3 : em.g2e ≤ em.g3e := by omega
  have hms5 : em.g4e ≤ em.me := by omega
  unfold syncLine
  rw [hem]
  unfold newContent
  cases htab : table (slice line em.g1e em.g2e) with
  | some v =>
    simp only [htab, List.append_assoc]
    rw [drop_merge line hms5, take_merge line hms1, take_merge line hms2,
      take_merge line hms3]
  | none =>
    simp only [htab, List.append_assoc]
    rw [drop_merge line hms5, take_merge line hms1, take_merge line hms2,
      take_merge line hms3]

/-- An unmatched line passes through `syncLine` unchanged. -/
theorem syncLine_pass {table : Table} {line : List Char}
    (hem : reSearch false line = none) : syncLine table line = line := by
  unfold syncLine
  rw [hem]

/-! ### The translation table as a function of the match list -/

/-- Lookup in the dict built by `load_translations`'s loop: the value of the
last match whose key equals `k`, else the initial table's answer. -/
theorem foldl_insT_lookup (s : List Char) (l : List EntryMatch) (t0 : Table)
    (k : List Char) :
    (l.foldl (insT s) t0) k =
      match l.reverse.find? (fun em => decide (k = slice s em.g1e em.g2e)) with
      | some em => some (slice s em.g3e em.g4e)
      | none => t0 k := by
  induction l generalizing t0 with
  | nil => rfl
  | cons em l ih =>
    rw [List.foldl_cons, ih, List.reverse_cons, List.find?_append]
    cases hfl : l.reverse.find? (fun e => decide (k = slice s e.g1e e.g2e)) with
    | some em2 => rfl
    | none =>
      unfold insT
      by_cases hk : k = slice s em.g1e em.g2e
      · simp [List.find?, hk]
      · simp [List.find?, hk]

theorem take_slice (s : List Char) {a b : Nat} (hab : a ≤ b) :
    s.take a ++ slice s a b = s.take b := by
  have h := take_merge s hab []
  simpa using h

/-- The content slice of a match contains no occurrence of the closing tag:
the lazy `(.*?)</string>` stops at the first one. -/
theorem value_no_close {s : List Char} {a b : Nat}
    (hb : isLit closeLit s b = true)
    (hfirst : ∀ t, a ≤ t → t < b → isLit closeLit s t = false) :
    findSub closeLit (slice s a b) 0 = none := by
  apply firstFromAux_none
  intro t ht0 htlt
  cases hq : isLit closeLit (slice s a b) t with
  | false => rfl
  | true =>
    exfalso
    have h9 : closeLit.length = 9 := rfl
    have hblen : b + 9 ≤ s.length := by
      have h2 := isLit_length hb
      omega
    have hvlen : (slice s a b).length = b - a := by
      unfold slice
      rw [List.length_take, List.length_drop]
      omega
    have hlen9 := isLit_length hq
    rw [hvlen, h9] at hlen9
    have hpre := List.isPrefixOf_iff_prefix.mp hq
    have hdrop : (slice s a b).drop t = (s.drop (a + t)).take (b - a - t) := by
      unfold slice
      rw [List.drop_take, List.drop_drop]
    rw [hdrop] at hpre
    have hpre2 : closeLit <+: s.drop (a + t) := hpre.trans (List.take_prefix _ _)
    have hlit : isLit closeLit s (a + t) = true :=
      List.isPrefixOf_iff_prefix.mpr hpre2
    have hfalse := hfirst (a + t) (by omega) (by omega)
    rw [hfalse] at hlit
    exact Bool.false_ne_true hlit

/-- Provenance of a `load_translations` binding: it comes from the last
pattern match whose key is `k`. -/
theorem load_translations_some {s k v : List Char}
    (h : load_translations s k = some v) :
    ∃ em, (finditer s).reverse.find?
        (fun e => decide (k = slice s e.g1e e.g2e)) = some em ∧
      k = slice s em.g1e em.g2e ∧ v = slice s em.g3e em.g4e ∧ em ∈ finditer s := by
  unfold load_translations at h
  rw [foldl_insT_lookup] at h
  cases hfl : (finditer s).reverse.find?
      (fun e => decide (k = slice s e.g1e e.g2e)) with
  | none => rw [hfl] at h; simp at h
  | some em =>
    rw [hfl] at h
    injection h with h
    have hp := List.find?_some hfl
    have hmem := List.mem_reverse.mp (List.mem_of_find?_eq_some hfl)
    exact ⟨em, rfl, of_decide_eq_true hp, h.symm, hmem⟩

/-! ### The claims -/

/-- C1: For every canonical file and an empty target file (whose translation
table is empty), every canonical line matching the entry pattern is written
with content exactly `TODO: ` followed by that line's canonical content
(everything around the content slot kept verbatim), and every canonical
line not matching the pattern is copied into the output unchanged. -/
theorem C1_empty_target_gets_pending_marker (canonical line : List Char)
    (hline : line ∈ pyReadlines canonical) :
    (∀ em, reSearch false line = some em →
        syncLine (load_translations []) line =
          line.take em.g3e ++ (todoLit ++ slice line em.g3e em.g4e) ++
            line.drop em.g4e) ∧
    (reSearch false line = none → syncLine (load_translations []) line = line) := by
  constructor
  · intro em hem
    rw [syncLine_frame hem]
    have hnc : newContent (load_translations []) line em
        = todoLit ++ slice line em.g3e em.g4e := by
      unfold newContent
      rw [show load_translations [] (slice line em.g1e em.g2e) = none from rfl]
    rw [hnc]
  · exact syncLine_pass

/-- C1 witness: the concrete scenario of the spec — canonical entry
`greeting`/`Hello` synchronized against an empty target yields
`TODO: Hello`. -/
theorem C1_witness :
    syncLine (load_translations []) greetingCanon =
      ("<string name=\x22greeting\x22>TODO: Hello</string>\n").data := by
  have h := (C1_empty_target_gets_pending_marker greetingCanon greetingCanon
      (by decide)).1 emGreeting (by decide)
  exact h.trans (by decide)

/-- C2 (amended): for every key present in both the canonical file and the
target's translation table, the output's entry line carries exactly the
prior translation in its content slot; and a second run over the first
run's output is byte-identical to the first run's output PROVIDED that
re-extracting the translation table from that output maps each canonical
entry key to exactly the content that was written for it (the guard fails,
e.g., when the same key occurs in more than one canonical entry). -/
theorem C2_translation_preserved_and_guarded_idempotence
    (canonical target : List Char) :
    (∀ line ∈ pyReadlines canonical, ∀ em v, reSearch false line = some em →
        load_translations target (slice line em.g1e em.g2e) = some v →
        syncLine (load_translations target) line =
          line.take em.g3e ++ v ++ line.drop em.g4e) ∧
    ((pyReadlines canonical).all
        (lineRecovers (load_translations (sync_text canonical target))
          (load_translations target)) = true →
      sync_text canonical (sync_text canonical target) =
        sync_text canonical target) := by
  constructor
  · intro line _hline em v hem htab
    rw [syncLine_frame hem]
    have hnc : newContent (load_translations target) line em = v := by
      unfold newContent
      rw [htab]
    rw [hnc]
  · intro hall
    unfold sync_text
    congr 1
    apply List.map_congr_left
    intro line hline
    have hrec := (List.all_eq_true.mp hall) line hline
    unfold lineRecovers at hrec
    cases hem : reSearch false line with
    | none => rw [syncLine_pass hem, syncLine_pass hem]
    | some em =>
      rw [hem] at hrec
      have ht2 := of_decide_eq_true hrec
      rw [syncLine_frame hem, syncLine_frame hem]
      have hnc : newContent
            (load_translations
              (((pyReadlines canonical).map
                  (syncLine (load_translations target))).flatten))
            line em
          = newContent (load_translations target) line em := by
        unfold newContent
        rw [show load_translations (sync_text canonical target)
            = load_translations
                (((pyReadlines canonical).map
                    (syncLine (load_translations target))).flatten) from rfl] at ht2
        rw [ht2]
        rfl
      rw [hnc]

/-- C2 counterexample: with the key `a` occurring in two canonical entries,
the second run differs from the first (the first run's output binds `a` to
the last entry's content, which the second run then writes into both
lines), refuting unconditional idempotence. -/
theorem C2_counterexample :
    sync_text dupCanon (sync_text dupCanon []) ≠ sync_text dupCanon [] := by
  decide

/-- C2 witness: with the canonical `greeting`/`Hello` entry and a target
already translating it as `Bonjour`, the run keeps `Bonjour` and a second
run is byte-identical. -/
theorem C2_witness :
    sync_text greetingCanon (sync_text greetingCanon bonjourTarget) =
      sync_text greetingCanon bonjourTarget ∧
    syncLine (load_translations bonjourTarget) greetingCanon =
      greetingCanon.take 24 ++ ("Bonjour").data ++ greetingCanon.drop 29 := by
  have h := C2_translation_preserved_and_guarded_idempotence
    greetingCanon bonjourTarget
  exact ⟨h.2 (by decide),
    h.1 greetingCanon (by decide) emGreeting (("Bonjour").data)
      (by decide) (by decide)⟩

/-- C3 counterexample: the target's entry `zzz` is absent from the
canonical file; after synchronization it is gone — the output's table no
longer binds `zzz` and the file content changed — refuting "target-only
keys are left untouched". -/
theorem C3_counterexample :
    load_translations zzzTarget (("zzz").data) = some (("Zed").data) ∧
    load_translations (sync_text aHelloCanon zzzTarget) (("zzz").data) = none ∧
    sync_text aHelloCanon zzzTarget ≠ zzzTarget := by
  decide

/-- C3 (amended): target-only entries are not preserved — the output is
rebuilt from the canonical file's lines alone, so every target whose table
does not translate the canonical key `a` produces the same fixed output,
regardless of any target-only content. -/
theorem C3_target_only_keys_pruned (target : List Char)
    (h : load_translations target (("a").data) = none) :
    sync_text aHelloCanon target =
      ("<string name=\x22a\x22>TODO: Hello</string>\n").data := by
  have hline : syncLine (load_translations target) aHelloCanon
      = ("<string name=\x22a\x22>TODO: Hello</string>\n").data := by
    unfold syncLine
    rw [show reSearch false aHelloCanon
        = some ⟨0, 14, 15, 17, 22, 31⟩ from rfl]
    simp only [show slice aHelloCanon 14 15 = ("a").data from rfl, h]
    decide
  unfold sync_text
  rw [show pyReadlines aHelloCanon = [aHelloCanon] from rfl, List.map_cons,
    List.map_nil, hline]
  decide

/-- C3 witness: the empty target has no translation for `a`, and the output
is the fixed pending-marked canonical line. -/
theorem C3_witness :
    sync_text aHelloCanon [] =
      ("<string name=\x22a\x22>TODO: Hello</string>\n").data :=
  C3_target_only_keys_pruned [] (by decide)

/-- C4: a canonical line matching the entry pattern is rewritten only in
its content slot: the output is the line's prefix up to the end of the
`"[^>]*>` group, then the new content, then the line's suffix from the
closing tag on; the prefix splits into the characters before the match,
the `<string...name="` group, the key, and the `"[^>]*>` group, all
verbatim, and the suffix into the closing tag and the characters after the
match, all verbatim. -/
theorem C4_frame_preserved (table : Table) (line : List Char) (em : EntryMatch)
    (hem : reSearch false line = some em) :
    syncLine table line =
      line.take em.g3e ++ newContent table line em ++ line.drop em.g4e ∧
    line.take em.g3e =
      line.take em.ms ++ slice line em.ms em.g1e ++ slice line em.g1e em.g2e ++
        slice line em.g2e em.g3e ∧
    line.drop em.g4e = slice line em.g4e em.me ++ line.drop em.me := by
  obtain ⟨i, hi⟩ := reSearch_some hem
  obtain ⟨hms, h1, h2, h3, h4, hme, -⟩ := matchAt_sound hi
  refine ⟨syncLine_frame hem, ?_, ?_⟩
  · rw [List.append_assoc, List.append_assoc,
      take_merge line (show em.ms ≤ em.g1e by omega),
      take_merge line (show em.g1e ≤ em.g2e by omega),
      take_slice line (show em.g2e ≤ em.g3e by omega)]
  · rw [drop_merge line (show em.g4e ≤ em.me by omega)]

/-- C4 witness: the frame property at the concrete `greeting`/`Hello`
canonical line with an empty table. -/
theorem C4_witness :
    syncLine (fun _ => none) greetingCanon =
      greetingCanon.take 24 ++ newContent (fun _ => none) greetingCanon emGreeting ++
        greetingCanon.drop 29 ∧
    greetingCanon.take 24 =
      greetingCanon.take 0 ++ slice greetingCanon 0 14 ++
        slice greetingCanon 14 22 ++ slice greetingCanon 22 24 ∧
    greetingCanon.drop 29 = slice greetingCanon 29 38 ++ greetingCanon.drop 38 :=
  C4_frame_preserved (fun _ => none) greetingCanon emGreeting (by decide)

/-- C5: every binding produced by `load_translations` comes from a pattern
match whose content slot ends at the first occurrence of `</string>` after
the opening tag, so the stored content never contains the closing
delimiter: extraction truncates at the first closing tag. -/
theorem C5_content_truncated_at_first_close (s k v : List Char)
    (h : load_translations s k = some v) :
    ∃ em, matchAt true s em.ms = some em ∧ k = slice s em.g1e em.g2e ∧
      v = slice s em.g3e em.g4e ∧ findSub closeLit s em.g3e = some em.g4e ∧
      findSub closeLit v 0 = none := by
  obtain ⟨em, hfind, hk, hv, hmem⟩ := load_translations_some h
  obtain ⟨i, hi⟩ := finditer_mem hmem
  obtain ⟨hms, -, -, -, -, -, hfs⟩ := matchAt_sound hi
  refine ⟨em, ?_, hk, hv, hfs, ?_⟩
  · rw [hms]
    exact hi
  · obtain ⟨hle, hb, hfirst⟩ := findSub_some hfs
    rw [hv]
    exact value_no_close hb hfirst

/-- C5 witness: in `strayClose` the entry `n` is followed by a stray
closing tag; extraction stops at the first one, binding `n` to `A`. -/
theorem C5_witness :
    ∃ em, matchAt true strayClose em.ms = some em ∧
      ("n").data = slice strayClose em.g1e em.g2e ∧
      ("A").data = slice strayClose em.g3e em.g4e ∧
      findSub closeLit strayClose em.g3e = some em.g4e ∧
      findSub closeLit (("A").data) 0 = none :=
  C5_content_truncated_at_first_close strayClose (("n").data) (("A").data)
    (by decide)

/-- C6: the spec's concrete scenario — canonical `greeting`/`Hello`, target
already `greeting`/`Bonjour`: synchronization reproduces the target
byte-for-byte. -/
theorem C6_existing_translation_byte_identical :
    sync_text greetingCanon bonjourTarget = bonjourTarget := by
  decide

/-- C7: when the canonical file does not exist, `main` aborts with an empty
event trace — no directory listing, no target read, no canonical read, no
write. -/
theorem C7_missing_canonical_aborts (fs : FS) (h : fs.englishFile = none) :
    main_run fs = [] := by
  unfold main_run
  rw [h]

/-- C7 witness: a filesystem with a locale directory but no canonical file
produces no events. -/
theorem C7_witness : main_run fsNoCanon = [] :=
  C7_missing_canonical_aborts fsNoCanon rfl

/-- C8: a discovered `values-` directory whose resource file is absent is
skipped silently: `sync_file` performs no read of the canonical file and no
write (its event list is empty and it produces no output), and removing
the directory from the listing leaves the whole run's event trace
unchanged. -/
theorem C8_missing_target_silently_skipped (d canonical : List Char) (fs : FS)
    (pre post : List (List Char)) (hd : valuesPre.isPrefixOf d = true)
    (htf : fs.targetFiles d = none) (hent : fs.entries = pre ++ d :: post) :
    sync_file d (fs.targetFiles d) canonical = ([], none) ∧
    main_run fs = main_run { fs with entries := pre ++ post } := by
  have hsf : ∀ cc : List Char, sync_file d none cc = ([], none) := by
    intro cc
    unfold sync_file
    split <;> rfl
  constructor
  · rw [htf]
    exact hsf canonical
  · unfold main_run
    cases hef : fs.englishFile with
    | none => rfl
    | some c =>
      dsimp only
      congr 1
      rw [hent, List.filter_append, List.filter_cons]
      cases hpred : (valuesPre.isPrefixOf d && fs.isDir d) with
      | true =>
        simp [htf, hsf c, List.filter_append]
      | false =>
        simp [List.filter_append]

/-- C8 witness: one `values-` directory without a resource file — the
sync is a no-op and the run equals the run over an empty listing. -/
theorem C8_witness :
    sync_file (("values-fr").data) (fsOneDir.targetFiles (("values-fr").data))
        greetingCanon = ([], none) ∧
    main_run fsOneDir = main_run { fsOneDir with entries := ([] : List (List Char)) } :=
  C8_missing_target_silently_skipped (("values-fr").data) greetingCanon fsOneDir
    [] [] (by decide) rfl rfl

/-- C9 counterexample: a target whose stored translation embeds a newline
makes the output have more physical lines than the canonical file,
refuting "exactly one line per canonical line". -/
theorem C9_counterexample :
    (pyReadlines (sync_text aCanonLine newlineTarget)).length ≠
      (pyReadlines aCanonLine).length := by
  decide

/-- C9 (amended): the output is the concatenation of one rewritten segment
per canonical line, in canonical order (a segment may span several physical
lines when a stored translation contains a newline), and the prior target
influences the output only through its translation table: targets with
equal tables give byte-identical outputs. -/
theorem C9_output_depends_only_on_table (canonical t1 t2 : List Char)
    (h : ∀ k, load_translations t1 k = load_translations t2 k) :
    sync_text canonical t1 = sync_text canonical t2 ∧
    sync_text canonical t1 =
      ((pyReadlines canonical).map (syncLine (load_translations t1))).flatten := by
  have hT : load_translations t1 = load_translations t2 := funext h
  constructor
  · unfold sync_text
    rw [hT]
  · rfl

/-- C9 witness: a target with no entries at all has the same (empty) table
as the empty target, hence the same output. -/
theorem C9_witness :
    sync_text greetingCanon junkTarget = sync_text greetingCanon [] ∧
    sync_text greetingCanon junkTarget =
      ((pyReadlines greetingCanon).map
          (syncLine (load_translations junkTarget))).flatten :=
  C9_output_depends_only_on_table greetingCanon junkTarget [] (fun _ => rfl)

/-- C10: when a key has (one or more) matches in the input text,
`load_translations` binds it to the content of the last such match: later
occurrences overwrite earlier ones. -/
theorem C10_last_match_wins (s k : List Char) (em : EntryMatch)
    (h : (finditer s).reverse.find? (fun e => decide (k = slice s e.g1e e.g2e))
        = some em) :
    load_translations s k = some (slice s em.g3e em.g4e) := by
  unfold load_translations
  rw [foldl_insT_lookup, h]

/-- C10 witness: `dupText` binds `a` first to `1`, then to `2`; the table
holds `2`. -/
theorem C10_witness : load_translations dupText (("a").data) = some (("2").data) :=
  C10_last_match_wins dupText (("a").data) emDupLast (by decide)

end AirRally
